import Mathlib

/-!
Verification development for the Clarice language pipeline
(lexer.rs, parser.rs, symbol_table.rs, type_checker.rs, interpreter.rs).

The Rust sources are shallowly embedded below: tokens, AST, symbol table,
checker and evaluator become plain Lean data types and total functions.
Machine integers (i64) are modelled as Int with the overflow behaviour of
`str::parse::<i64>` made explicit where it matters (the lexer's
`parse().unwrap_or(0)`).  The evaluator's standard output and standard
error are modelled as explicit lists of lines threaded through a state
record; the unbounded `loop` construct is modelled with a fuel parameter
that only `loop` iterations consume, so `none` means "did not finish".

Rust's `char::is_alphabetic`/`is_alphanumeric`/`is_whitespace` are Unicode
classes; they are modelled here by their ASCII fragments, which agree with
the Rust functions on every ASCII source line (all programs considered in
the claims are ASCII).
-/

namespace Clarice

/-- ASCII fragment of Rust `char::is_digit(10)`. -/
def isDigitC (c : Char) : Bool :=
  48 ≤ c.toNat && c.toNat ≤ 57

/-- ASCII fragment of Rust `char::is_alphabetic`. -/
def isAlphaC (c : Char) : Bool :=
  (65 ≤ c.toNat && c.toNat ≤ 90) || (97 ≤ c.toNat && c.toNat ≤ 122)

/-- ASCII fragment of Rust `char::is_alphanumeric`. -/
def isAlnumC (c : Char) : Bool :=
  isAlphaC c || isDigitC c

/-- ASCII fragment of Rust `char::is_whitespace`. -/
def isSpaceC (c : Char) : Bool :=
  c = ' ' || c = '\t' || c = '\n' || c = '\x0d' || c = '\x0c' || c = '\x0b'

/-- The character consumed as part of an identifier run
(`c.is_alphanumeric() || c == '_'`, lexer.rs line 108). -/
def isIdentC (c : Char) : Bool :=
  isAlnumC c || c = '_'

/-- `Token` from lexer.rs.  `EOF` is the end-of-input marker. -/
inductive Token where
  | Keyword : String → Token
  | Identifier : String → Token
  | IntegerLiteral : Int → Token
  | StringLiteral : String → Token
  | Operator : String → Token
  | Separator : String → Token
  | EOF : Token
deriving DecidableEq, Repr

/-- The fixed keyword set of `tokenize_identifier_or_keyword`
(lexer.rs line 118).  Note that `otherwise` is absent. -/
def isKeywordText (s : String) : Bool :=
  s = "with" || s = "set" || s = "as" || s = "to" || s = "then" ||
  s = "do" || s = "print" || s = "where" || s = "loop" || s = "iter"

/-- i64::MAX. -/
def i64Max : Nat := 9223372036854775807

/-- Value of a run of decimal digit characters. -/
def digitsToNat (cs : List Char) : Nat :=
  cs.foldl (fun a c => 10 * a + (c.toNat - 48)) 0

/-- `num_str.parse::<i64>().unwrap_or(0)` (lexer.rs line 100) applied to a
run of decimal digits: a numeral exceeding i64::MAX fails to parse and
collapses to 0.  (The run never carries a sign, so i64::MIN is unreachable.) -/
def parseI64 (cs : List Char) : Int :=
  if digitsToNat cs ≤ i64Max then (digitsToNat cs : Int) else 0

/-- `Lexer::get_next_token` (lexer.rs lines 51-139) over the remaining
input characters: returns the next token and the input left after it.
Whitespace and unrecognized characters are consumed silently. -/
def nextToken : List Char → Token × List Char
  | [] => (Token.EOF, [])
  | c :: rest =>
    if isSpaceC c then nextToken rest
    else if isDigitC c then
      (Token.IntegerLiteral (parseI64 ((c :: rest).takeWhile isDigitC)),
       (c :: rest).dropWhile isDigitC)
    else if isAlphaC c then
      ((if isKeywordText (String.mk ((c :: rest).takeWhile isIdentC)) then
          Token.Keyword (String.mk ((c :: rest).takeWhile isIdentC))
        else
          Token.Identifier (String.mk ((c :: rest).takeWhile isIdentC))),
       (c :: rest).dropWhile isIdentC)
    else if c = '+' || c = '-' || c = '*' || c = '/' || c = '=' then
      (Token.Operator (String.mk [c]), rest)
    else if c = '(' || c = ')' || c = '\x7b' || c = '\x7d' || c = '[' ||
            c = ']' || c = ':' || c = ';' || c = ',' || c = '.' then
      (Token.Separator (String.mk [c]), rest)
    else if c = '\"' then
      (Token.StringLiteral (String.mk (rest.takeWhile (fun ch => ch ≠ '\"'))),
       (rest.dropWhile (fun ch => ch ≠ '\"')).tail)
    else nextToken rest

/-- A non-EOF token consumes at least one character. -/
theorem nextToken_length_lt :
    ∀ cs : List Char, (nextToken cs).1 ≠ Token.EOF →
      (nextToken cs).2.length < cs.length := by
  intro cs
  induction cs with
  | nil => intro h; exact absurd rfl h
  | cons c rest ih =>
    intro h
    by_cases h1 : isSpaceC c = true
    · rw [show nextToken (c :: rest) = nextToken rest by
        simp only [nextToken, h1, if_true]] at h ⊢
      exact Nat.lt_succ_of_lt (ih h)
    · simp only [nextToken, h1, if_false] at h ⊢
      by_cases h2 : isDigitC c = true
      · simp only [h2, if_true] at h ⊢
        have hle : ((c :: rest).dropWhile isDigitC).length ≤ rest.length := by
          rw [List.dropWhile_cons, if_pos h2]
          exact (List.dropWhile_sublist _).length_le
        simpa using Nat.lt_succ_of_le hle
      · simp only [h2, if_false] at h ⊢
        by_cases h3 : isAlphaC c = true
        · simp only [h3, if_true] at h ⊢
          have hc : isIdentC c = true := by simp [isIdentC, isAlnumC, h3]
          have hle : ((c :: rest).dropWhile isIdentC).length ≤ rest.length := by
            rw [List.dropWhile_cons, if_pos hc]
            exact (List.dropWhile_sublist _).length_le
          simpa using Nat.lt_succ_of_le hle
        · simp only [h3, if_false] at h ⊢
          by_cases h4 : (c = '+' || c = '-' || c = '*' || c = '/' || c = '=') = true
          · simp only [h4, if_true] at h ⊢
            simp
          · simp only [h4, if_false] at h ⊢
            by_cases h5 : (c = '(' || c = ')' || c = '\x7b' || c = '\x7d' || c = '[' ||
                c = ']' || c = ':' || c = ';' || c = ',' || c = '.') = true
            · simp only [h5, if_true] at h ⊢
              simp
            · simp only [h5, if_false] at h ⊢
              by_cases h6 : c = '\"'
              · rw [if_pos h6] at h ⊢
                have h7 : ((rest.dropWhile (fun ch => ch ≠ '\"')).tail).length ≤
                    (rest.dropWhile (fun ch => ch ≠ '\"')).length := by
                  cases rest.dropWhile (fun ch => ch ≠ '\"') <;> simp
                have h8 : (rest.dropWhile (fun ch => ch ≠ '\"')).length ≤ rest.length :=
                  (List.dropWhile_sublist _).length_le
                simpa using Nat.lt_succ_of_le (le_trans h7 h8)
              · rw [if_neg h6] at h ⊢
                exact Nat.lt_succ_of_lt (ih h)

theorem nextToken_snd_lt {cs : List Char} {t : Token} {rest : List Char}
    (h : nextToken cs = (t, rest)) (ht : t ≠ Token.EOF) :
    rest.length < cs.length := by
  have := nextToken_length_lt cs (by rw [h]; exact ht)
  rwa [h] at this

/-- Fueled worker for full tokenization (the REPL loop pulls tokens until
`EOF`); `tokenize` below always supplies sufficient fuel. -/
def tokenizeF : Nat → List Char → List Token
  | 0, _ => []
  | fuel + 1, cs =>
    match nextToken cs with
    | (Token.EOF, _) => []
    | (t, rest) => t :: tokenizeF fuel rest

/-- Full tokenization: repeatedly pull tokens until `EOF` (the `EOF`
marker itself is not included).  A non-EOF token consumes at least one
character, so `cs.length + 1` units of fuel always suffice;
`tokenize_unfold` below proves the expected recursion is satisfied. -/
def tokenize (cs : List Char) : List Token :=
  tokenizeF (cs.length + 1) cs

theorem tokenizeF_congr :
    ∀ m k cs, cs.length < m → cs.length < k → tokenizeF m cs = tokenizeF k cs := by
  intro m
  induction m with
  | zero => intro k cs hm; omega
  | succ m ih =>
    intro k cs hm hk
    cases k with
    | zero => omega
    | succ k =>
      simp only [tokenizeF]
      rcases hnt : nextToken cs with ⟨t, rest⟩
      cases t with
      | EOF => rfl
      | Keyword s =>
        have hlt := nextToken_snd_lt hnt (by simp)
        simp [ih k rest (by omega) (by omega)]
      | Identifier s =>
        have hlt := nextToken_snd_lt hnt (by simp)
        simp [ih k rest (by omega) (by omega)]
      | IntegerLiteral n =>
        have hlt := nextToken_snd_lt hnt (by simp)
        simp [ih k rest (by omega) (by omega)]
      | StringLiteral s =>
        have hlt := nextToken_snd_lt hnt (by simp)
        simp [ih k rest (by omega) (by omega)]
      | Operator s =>
        have hlt := nextToken_snd_lt hnt (by simp)
        simp [ih k rest (by omega) (by omega)]
      | Separator s =>
        have hlt := nextToken_snd_lt hnt (by simp)
        simp [ih k rest (by omega) (by omega)]

/-- `tokenize` satisfies the natural "pull until EOF" recursion, so the
fuel in its definition is invisible. -/
theorem tokenize_unfold (cs : List Char) :
    ((nextToken cs).1 = Token.EOF → tokenize cs = []) ∧
    ((nextToken cs).1 ≠ Token.EOF →
      tokenize cs = (nextToken cs).1 :: tokenize (nextToken cs).2) := by
  rcases hnt : nextToken cs with ⟨t, rest⟩
  simp only
  constructor
  · intro h
    subst h
    simp [tokenize, tokenizeF, hnt]
  · intro h
    have hlt := nextToken_snd_lt hnt h
    have step : tokenizeF (cs.length + 1) cs = t :: tokenizeF cs.length rest := by
      cases t with
      | EOF => exact absurd rfl h
      | Keyword s => simp [tokenizeF, hnt]
      | Identifier s => simp [tokenizeF, hnt]
      | IntegerLiteral n => simp [tokenizeF, hnt]
      | StringLiteral s => simp [tokenizeF, hnt]
      | Operator s => simp [tokenizeF, hnt]
      | Separator s => simp [tokenizeF, hnt]
    show tokenizeF (cs.length + 1) cs = t :: tokenizeF (rest.length + 1) rest
    rw [step, tokenizeF_congr cs.length (rest.length + 1) rest hlt (by omega)]

/-! ## AST (parser.rs lines 8-95)

The Rust `Statement` variants box one struct each; their fields are
inlined here as constructor arguments in the struct's field order.
The bare-expression statement variant `Statement::Expression` is named
`ExprStmt` because a constructor cannot shadow the `Expression` type it
takes as argument. -/

/-- `Expression` from parser.rs lines 88-95. -/
inductive Expression where
  | Identifier : String → Expression
  | IntegerLiteral : Int → Expression
  | StringLiteral : String → Expression
  | BooleanLiteral : Bool → Expression
  | ListLiteral : List Expression → Expression
  | FunctionCall : String → List Expression → Expression
deriving Repr

mutual
/-- `ASTNode` from parser.rs lines 8-11. -/
inductive ASTNode where
  | Program : List Statement → ASTNode

/-- `Statement` from parser.rs lines 13-26 with each boxed struct's
fields inlined (parser.rs lines 28-85). -/
inductive Statement where
  | With : String → Expression → Statement
  | Set : String → Expression → Statement
  | As : String → Expression → Statement
  | To : String → Expression → Statement
  | Then : Statement → Statement
  | Do : Expression → Statement → Statement
  | Print : Expression → Statement
  | Where : Expression → ASTNode → Option ASTNode → Statement
  | Loop : Expression → Statement
  | Iter : String → Expression → Expression → Statement
  | ExprStmt : Expression → Statement
end

/-! ## Debug renderings

Rust's `{:?}` formatting of the tuple-style enums, used in diagnostics
and in `print`'s rendering of List/Closure values. -/

/-- Rust `Debug` of a `String`: the text in double quotes.  (Escape
sequences inside the text are not reproduced; no claim exercises them.) -/
def quoteStr (s : String) : String := "\"" ++ s ++ "\""

/-- Rust `Debug` of a `Token`. -/
def debugToken : Token → String
  | Token.Keyword s => "Keyword(" ++ quoteStr s ++ ")"
  | Token.Identifier s => "Identifier(" ++ quoteStr s ++ ")"
  | Token.IntegerLiteral i => "IntegerLiteral(" ++ toString i ++ ")"
  | Token.StringLiteral s => "StringLiteral(" ++ quoteStr s ++ ")"
  | Token.Operator s => "Operator(" ++ quoteStr s ++ ")"
  | Token.Separator s => "Separator(" ++ quoteStr s ++ ")"
  | Token.EOF => "EOF"

mutual
/-- Rust `Debug` of an `Expression`; a `Vec` renders as its
comma-separated elements in square brackets. -/
def debugExpr : Expression → String
  | Expression.Identifier s => "Identifier(" ++ quoteStr s ++ ")"
  | Expression.IntegerLiteral i => "IntegerLiteral(" ++ toString i ++ ")"
  | Expression.StringLiteral s => "StringLiteral(" ++ quoteStr s ++ ")"
  | Expression.BooleanLiteral b => "BooleanLiteral(" ++ toString b ++ ")"
  | Expression.ListLiteral l => "ListLiteral([" ++ debugExprInner l ++ "])"
  | Expression.FunctionCall n args =>
      "FunctionCall(" ++ quoteStr n ++ ", [" ++ debugExprInner args ++ "])"
termination_by structural e => e

/-- The comma-separated element renderings of a `Vec<Expression>`. -/
def debugExprInner : List Expression → String
  | [] => ""
  | [e] => debugExpr e
  | e :: rest => debugExpr e ++ ", " ++ debugExprInner rest
termination_by structural l => l
end

/-- Rust `Debug` of a `Vec<Expression>`. -/
def debugExprList (l : List Expression) : String :=
  "[" ++ debugExprInner l ++ "]"

/-! ## Symbol table and type checker (symbol_table.rs, type_checker.rs) -/

/-- `Type` from symbol_table.rs lines 5-14 (named `Ty` because `Type` is
reserved in Lean). -/
inductive Ty where
  | Integer | Double | String | Boolean | Closure | List | Void
deriving DecidableEq, Repr

/-- `Symbol` from symbol_table.rs lines 16-20. -/
structure Symbol where
  name : String
  symbol_type : Ty

/-- `SymbolTable` (symbol_table.rs lines 22-45): a flat `HashMap`,
modelled as its lookup function. -/
def SymbolTable := String → Option Symbol

/-- `SymbolTable::new`. -/
def SymbolTable.empty : SymbolTable := fun _ => none

/-- `SymbolTable::insert`: last write wins. -/
def SymbolTable.insert (t : SymbolTable) (n : String) (ty : Ty) : SymbolTable :=
  fun k => if k = n then some ⟨n, ty⟩ else t k

/-- Minimal rendering of a `Statement` for the checker's dead
"Undefined statement" diagnostic (the Rust code formats the full
`Debug` of the statement; that text is produced and immediately
discarded by `check`, so only its presence matters here). -/
def debugStatementTag : Statement → String
  | Statement.With _ _ => "With"
  | Statement.Set _ _ => "Set"
  | Statement.As _ _ => "As"
  | Statement.To _ _ => "To"
  | Statement.Then _ => "Then"
  | Statement.Do _ _ => "Do"
  | Statement.Print _ => "Print"
  | Statement.Where _ _ _ => "Where"
  | Statement.Loop _ => "Loop"
  | Statement.Iter _ _ _ => "Iter"
  | Statement.ExprStmt _ => "Expression"

/-- `TypeChecker::check_expression` (type_checker.rs lines 82-97):
literals type directly, identifiers are looked up (undefined fails),
and the catch-all arm rejects `ListLiteral`/`FunctionCall`. -/
def checkExpression (tbl : SymbolTable) : Expression → Except String Ty
  | Expression.IntegerLiteral _ => Except.ok Ty.Integer
  | Expression.StringLiteral _ => Except.ok Ty.String
  | Expression.BooleanLiteral _ => Except.ok Ty.Boolean
  | Expression.Identifier name =>
    match tbl name with
    | some symbol => Except.ok symbol.symbol_type
    | none => Except.error ("Undefined variable `" ++ name ++ "`")
  | e => Except.error ("Invalid expression `" ++ debugExpr e ++ "`")

/-- `TypeChecker::check_statement` (type_checker.rs lines 31-80).
Returns the updated symbol table on success.  In the Rust code the
table is a field mutated in place; an erroring statement never reaches
its `insert` (the `?` fires first), so on error the table is unchanged
and the caller keeps its old table.  For Set/As/To the expression's
type is recorded; for Then the inner statement is checked with its
`Result` discarded; Do/Print/With/Where/Loop/Iter check one expression
and discard the `Result`; the bare-expression statement hits the
catch-all `Err`. -/
def checkStatement (tbl : SymbolTable) : Statement → Except String SymbolTable
  | Statement.Set vr e =>
    match checkExpression tbl e with
    | Except.ok ty => Except.ok (tbl.insert vr ty)
    | Except.error msg => Except.error msg
  | Statement.As identifier e =>
    match checkExpression tbl e with
    | Except.ok ty => Except.ok (tbl.insert identifier ty)
    | Except.error msg => Except.error msg
  | Statement.Then s =>
    -- the inner Result is dropped (type_checker.rs line 49) but the
    -- table mutation it performed persists
    match checkStatement tbl s with
    | Except.ok tbl2 => Except.ok tbl2
    | Except.error _ => Except.ok tbl
  | Statement.To identifier e =>
    match checkExpression tbl e with
    | Except.ok ty => Except.ok (tbl.insert identifier ty)
    | Except.error msg => Except.error msg
  | Statement.Do e _ =>
    -- check_expression's Result is discarded (type_checker.rs line 53)
    match checkExpression tbl e with
    | _ => Except.ok tbl
  | Statement.Print e =>
    match checkExpression tbl e with
    | _ => Except.ok tbl
  | Statement.With _ e =>
    match checkExpression tbl e with
    | _ => Except.ok tbl
  | Statement.Where condition _ _ =>
    match checkExpression tbl condition with
    | _ => Except.ok tbl
  | Statement.Loop e =>
    match checkExpression tbl e with
    | _ => Except.ok tbl
  | Statement.Iter _ _ body =>
    -- the source checks `iter_statement.expression` (the body), not the
    -- iterable (type_checker.rs line 73)
    match checkExpression tbl body with
    | _ => Except.ok tbl
  | s =>
    Except.error ("Undefined statement `" ++ debugStatementTag s ++ "`")

/-- `TypeChecker::check` (type_checker.rs lines 17-29): iterates
`check_statement` over the program's statements, DISCARDING each
statement's `Result` (line 21 drops it), and unconditionally returns
`Ok(())`.  The fold threads the symbol-table mutations exactly as the
in-place Rust mutation does (an erroring statement leaves the table
unchanged). -/
def check : ASTNode → Except String Unit
  | ASTNode.Program statements =>
    let _tbl := statements.foldl
      (fun tbl s =>
        match checkStatement tbl s with
        | Except.ok tbl2 => tbl2
        | Except.error _ => tbl)
      SymbolTable.empty
    Except.ok ()

/-! ## Evaluator (interpreter.rs)

The `Environment`'s `HashMap<String, Value>` is modelled as the lookup
function `vars`; the lines written by `println!` (standard output) and
`eprintln!` (standard error) are collected in `out` and `err`.  The
`f64` payload of `Value::Double` is modelled as `Rat`; no code path
constructs a `Double` (the parser produces no double literals and
`evaluate_expression` has no arm yielding one - its `DoubleLiteral`
match arm refers to a variant the `Expression` enum does not declare),
so the choice of payload type is unobservable. -/

/-- `Value` from interpreter.rs lines 8-17. -/
inductive Value where
  | Integer : Int → Value
  | Double : Rat → Value
  | String : String → Value
  | Boolean : Bool → Value
  | List : List Expression → Value
  | Closure : String → List Expression → Value
  | Void : Value
deriving Repr

/-- Rust `Debug` of a `Value` (used by `execute_iter`'s "Cannot iterate
over" diagnostic). -/
def debugValue : Value → String
  | Value.Integer i => "Integer(" ++ toString i ++ ")"
  | Value.Double d => "Double(" ++ toString d ++ ")"
  | Value.String s => "String(" ++ quoteStr s ++ ")"
  | Value.Boolean b => "Boolean(" ++ toString b ++ ")"
  | Value.List l => "List(" ++ debugExprList l ++ ")"
  | Value.Closure n args => "Closure(" ++ quoteStr n ++ ", " ++ debugExprList args ++ ")"
  | Value.Void => "Void"

/-- The evaluator's run state: the `Environment` variables plus the
lines written so far to standard output and standard error. -/
structure EnvState where
  vars : String → Option Value
  out : List String
  err : List String

/-- Fresh state: `Environment::new` with nothing printed yet. -/
def initState : EnvState := ⟨fun _ => none, [], []⟩

/-- `Environment::set` / the `variables.insert` calls: overwrite the
binding for `name`. -/
def insertVar (st : EnvState) (name : String) (v : Value) : EnvState :=
  { st with vars := fun k => if k = name then some v else st.vars k }

/-- Append one line to standard error (`eprintln!`). -/
def pushErr (st : EnvState) (m : String) : EnvState :=
  { st with err := st.err ++ [m] }

/-- Append one line to standard output (`println!`). -/
def pushOut (st : EnvState) (m : String) : EnvState :=
  { st with out := st.out ++ [m] }

/-- `Environment::evaluate_expression` (interpreter.rs lines 217-234):
total - every expression yields a `Value`.  An unbound identifier logs
a diagnostic to standard error and yields `Void`; list literals and
function calls become inert `List`/`Closure` values holding their
unevaluated sub-expressions. -/
def evalExpr (st : EnvState) : Expression → Value × EnvState
  | Expression.Identifier id =>
    match st.vars id with
    | some v => (v, st)
    | none =>
      (Value.Void,
       pushErr st ("No variable `" ++ id ++ "` - use `with` or `set` to define it"))
  | Expression.IntegerLiteral i => (Value.Integer i, st)
  | Expression.BooleanLiteral b => (Value.Boolean b, st)
  | Expression.StringLiteral s => (Value.String s, st)
  | Expression.ListLiteral l => (Value.List l, st)
  | Expression.FunctionCall n args => (Value.Closure n args, st)

/-- `execute_print`'s rendering (interpreter.rs lines 137-148): one
line per invocation. -/
def renderValue : Value → String
  | Value.String s => s
  | Value.Integer i => toString i
  | Value.Double d => toString d
  | Value.Boolean b => toString b
  | Value.List l => debugExprList l
  | Value.Closure n args => quoteStr n ++ ", " ++ debugExprList args
  | Value.Void => ""

/-- The body of `execute_loop` (interpreter.rs lines 178-182):
`loop { self.evaluate_expression(&e); }` - re-evaluate the governing
expression forever.  Each iteration consumes one unit of fuel; `none`
means the statement did not finish within the given fuel. -/
def loopRun (e : Expression) : Nat → EnvState → Option EnvState
  | 0, _ => none
  | fuel + 1, st => loopRun e fuel (evalExpr st e).2

/-- One iteration of `execute_iter` over a `Value::String`
(interpreter.rs lines 195-200): bind the loop variable to the one-char
string, then evaluate the body for effect. -/
def iterCharStep (vr : String) (body : Expression) (st : EnvState) (c : Char) : EnvState :=
  (evalExpr (insertVar st vr (Value.String (String.mk [c]))) body).2

/-- One iteration of `execute_iter` over a `Value::List`
(interpreter.rs lines 206-212): evaluate the element, bind it, then
evaluate the body for effect. -/
def iterElemStep (vr : String) (body : Expression) (st : EnvState) (el : Expression) :
    EnvState :=
  match evalExpr st el with
  | (v, st1) => (evalExpr (insertVar st1 vr v) body).2

mutual
/-- `Environment::interpret` restricted to a statement list (the body
of interpreter.rs lines 38-46): execute the statements in order.
Fuel only bounds recursion depth / `loop` iterations: `none` means the
run did not finish within the fuel, and every terminating construct's
result is independent of the fuel once it is large enough. -/
def execList : Nat → EnvState → List Statement → Option EnvState
  | 0, _, _ => none
  | _ + 1, st, [] => some st
  | fuel + 1, st, s :: rest =>
    match execStmt fuel st s with
    | none => none
    | some st1 => execList fuel st1 rest

/-- `Environment::execute_statement` and the per-construct methods
(interpreter.rs lines 48-215). -/
def execStmt : Nat → EnvState → Statement → Option EnvState
  | 0, _, _ => none
  | _ + 1, st, Statement.With identifier e =>
    -- execute_with (lines 75-78): plain insert; the doc comment's
    -- promised drop after the next statement never happens
    match evalExpr st e with
    | (v, st1) => some (insertVar st1 identifier v)
  | _ + 1, st, Statement.Set vr e =>
    -- execute_set (lines 89-92)
    match evalExpr st e with
    | (v, st1) => some (insertVar st1 vr v)
  | _ + 1, st, Statement.As _ _ =>
    -- execute_as (lines 95-97)
    some (pushErr st "`as` cannot be used on its own - use `with expr as val`")
  | _ + 1, st, Statement.To _ _ =>
    -- execute_to (lines 100-102)
    some (pushErr st "`to` cannot be used on its own - use `set var to expr`")
  | fuel + 1, st, Statement.Then s =>
    -- execute_then (lines 112-114)
    execStmt fuel st s
  | fuel + 1, st, Statement.Do _ s =>
    -- execute_do (lines 127-129): only the wrapped statement runs; the
    -- stored expression is not evaluated
    execStmt fuel st s
  | _ + 1, st, Statement.Print e =>
    -- execute_print (lines 137-148)
    match evalExpr st e with
    | (v, st1) => some (pushOut st1 (renderValue v))
  | fuel + 1, st, Statement.Where condition tb fb =>
    -- execute_where (lines 160-168): `if let Boolean(true)` runs the
    -- true branch, else the false branch when present; each branch is
    -- run through `interpret`, i.e. its statement list is executed
    match evalExpr st condition with
    | (Value.Boolean true, st1) =>
      match tb with
      | ASTNode.Program stmts => execList fuel st1 stmts
    | (_, st1) =>
      match fb with
      | some (ASTNode.Program stmts) => execList fuel st1 stmts
      | none => some st1
  | fuel + 1, st, Statement.Loop e =>
    -- execute_loop (lines 178-182)
    loopRun e (fuel + 1) st
  | _ + 1, st, Statement.Iter vr iterable body =>
    -- execute_iter (lines 192-215)
    match evalExpr st iterable with
    | (Value.String s, st1) => some (s.data.foldl (iterCharStep vr body) st1)
    | (Value.Integer i, st1) =>
      -- `for _ in 0..i`: i.toNat iterations, loop variable untouched
      some (Nat.iterate (fun s2 => (evalExpr s2 body).2) i.toNat st1)
    | (Value.List l, st1) => some (l.foldl (iterElemStep vr body) st1)
    | (v, st1) => some (pushErr st1 ("Cannot iterate over " ++ debugValue v))
  | _ + 1, st, Statement.ExprStmt e =>
    -- execute_statement's Expression arm (line 60): evaluate, discard
    some (evalExpr st e).2
end

/-- `Environment::interpret` (interpreter.rs lines 38-46). -/
def interpret (fuel : Nat) (st : EnvState) : ASTNode → Option EnvState
  | ASTNode.Program statements => execList fuel st statements

/-! ## Parser (parser.rs lines 97-360)

The Rust parser pulls one token at a time from the lexer and keeps a
one-token lookahead in `current_token`.  Since the lexer's state is
never influenced by the parser, this is equivalent to parsing a
pre-tokenized list whose head plays the role of `current_token` (with
`EOF` when the list is exhausted).  The parser's `println!` diagnostics
go to standard output and are collected in `diags`.

`parse_program` loops until `EOF` and each `parse_statement` call
consumes at least one token, so the recursion is bounded by the token
count; the mutually recursive functions take a fuel argument (plainly
sufficient fuel is supplied at every concrete use). -/

/-- Parser state: remaining tokens (head = `current_token`) and the
diagnostics printed so far. -/
structure PState where
  toks : List Token
  diags : List String

/-- `self.current_token`. -/
def pCurrent (ps : PState) : Token := ps.toks.headD Token.EOF

/-- `self.advance()`. -/
def pAdvance (ps : PState) : PState := { ps with toks := ps.toks.tail }

/-- A `println!` diagnostic from the parser. -/
def pDiag (ps : PState) (m : String) : PState := { ps with diags := ps.diags ++ [m] }

/-- `Parser::parse_expression` (parser.rs lines 331-352): exactly one
of Identifier/IntegerLiteral/StringLiteral; anything else emits a
diagnostic, is skipped, and yields the placeholder string expression. -/
def parseExpressionP (ps : PState) : Expression × PState :=
  match pCurrent ps with
  | Token.Identifier id => (Expression.Identifier id, pAdvance ps)
  | Token.IntegerLiteral num => (Expression.IntegerLiteral num, pAdvance ps)
  | Token.StringLiteral s => (Expression.StringLiteral s, pAdvance ps)
  | t =>
    (Expression.StringLiteral "No Expression.",
     pAdvance (pDiag ps ("Expected an expression, got " ++ debugToken t)))

/-- `Parser::parse_with_statement` (parser.rs lines 167-185).  Note the
error arm does not advance, and the `as` keyword is never consumed. -/
def parseWithP (ps : PState) : Statement × PState :=
  let ps1 := pAdvance ps -- skip "with"
  match pCurrent ps1 with
  | Token.Identifier id =>
    match parseExpressionP (pAdvance ps1) with
    | (e, ps2) => (Statement.With id e, ps2)
  | t =>
    (Statement.With "error" (Expression.StringLiteral "No Expression (With)"),
     pDiag ps1 ("Expected identifier after 'with' keyword, got " ++ debugToken t))

/-- `Parser::parse_set_statement` (parser.rs lines 187-217): consumes
the `to` keyword between the variable and the expression. -/
def parseSetP (ps : PState) : Statement × PState :=
  let ps1 := pAdvance ps -- skip "set"
  match pCurrent ps1 with
  | Token.Identifier id =>
    let ps2 := pAdvance ps1 -- skip identifier
    match pCurrent ps2 with
    | Token.Keyword kw =>
      if kw = "to" then
        match parseExpressionP (pAdvance ps2) with
        | (e, ps3) => (Statement.Set id e, ps3)
      else
        (Statement.Set "error" (Expression.StringLiteral "No Expression (Set)"),
         pDiag ps2 ("Expected 'to' after variable name, got " ++ debugToken (pCurrent ps2)))
    | t =>
      (Statement.Set "error" (Expression.StringLiteral "No Expression (Set)"),
       pDiag ps2 ("Expected 'to' after variable name, got " ++ debugToken t))
  | t =>
    (Statement.Set "error" (Expression.StringLiteral "No Expression (Set)"),
     pDiag ps1 ("Expected identifier after 'set' keyword, got " ++ debugToken t))

/-- `Parser::parse_as_statement` (parser.rs lines 219-237). -/
def parseAsP (ps : PState) : Statement × PState :=
  let ps1 := pAdvance ps -- skip "as"
  match pCurrent ps1 with
  | Token.Identifier id =>
    match parseExpressionP (pAdvance ps1) with
    | (e, ps2) => (Statement.As id e, ps2)
  | t =>
    (Statement.As "error" (Expression.StringLiteral "No Expression (As)"),
     pDiag ps1 ("Expected identifier after 'as' keyword, got " ++ debugToken t))

/-- `Parser::parse_to_statement` (parser.rs lines 239-257). -/
def parseToP (ps : PState) : Statement × PState :=
  let ps1 := pAdvance ps -- skip "to"
  match pCurrent ps1 with
  | Token.Identifier id =>
    match parseExpressionP (pAdvance ps1) with
    | (e, ps2) => (Statement.To id e, ps2)
  | t =>
    (Statement.To "error" (Expression.StringLiteral "No Expression (To)"),
     pDiag ps1 ("Expected identifier after 'to' keyword, got " ++ debugToken t))

/-- `Parser::parse_print_statement` (parser.rs lines 276-282). -/
def parsePrintP (ps : PState) : Statement × PState :=
  match parseExpressionP (pAdvance ps) with
  | (e, ps1) => (Statement.Print e, ps1)

/-- `Parser::parse_loop_statement` (parser.rs lines 301-307). -/
def parseLoopP (ps : PState) : Statement × PState :=
  match parseExpressionP (pAdvance ps) with
  | (e, ps1) => (Statement.Loop e, ps1)

/-- `Parser::parse_iter_statement` (parser.rs lines 309-329).  The
local `expression` is parsed FIRST (directly after the variable name,
so it consumes the token right after the identifier - for source
`iter x in ...` that is the identifier `in`); the `iterable` field is
then filled by the second `parse_expression` call in the struct
literal.  No `in` or `do` token is ever consumed by this function. -/
def parseIterP (ps : PState) : Statement × PState :=
  let ps1 := pAdvance ps -- skip "iter"
  match pCurrent ps1 with
  | Token.Identifier vr =>
    match parseExpressionP (pAdvance ps1) with
    | (expression, ps2) =>
      match parseExpressionP ps2 with
      | (iterable, ps3) => (Statement.Iter vr iterable expression, ps3)
  | t =>
    (Statement.Iter "error" (Expression.StringLiteral "No Iterable (Iter)")
       (Expression.StringLiteral "No Identifier (Iter)."),
     pDiag ps1 ("Expected identifier after 'iter' keyword, got " ++ debugToken t))

mutual
/-- `Parser::parse_program` (parser.rs lines 116-123): parse statements
until `EOF`. -/
def parseProgramP : Nat → PState → ASTNode × PState
  | 0, ps => (ASTNode.Program [], ps)
  | fuel + 1, ps =>
    if pCurrent ps = Token.EOF then (ASTNode.Program [], ps)
    else
      match parseStatementP fuel ps with
      | (s, ps1) =>
        match parseProgramP fuel ps1 with
        | (ASTNode.Program rest, ps2) => (ASTNode.Program (s :: rest), ps2)

/-- `Parser::parse_statement` (parser.rs lines 125-165): dispatch on
the current token; a non-keyword token is reported and replaced by a
placeholder `Print` statement. -/
def parseStatementP : Nat → PState → Statement × PState
  | 0, ps => (Statement.Print (Expression.StringLiteral "No Statement."), ps)
  | fuel + 1, ps =>
    match pCurrent ps with
    | Token.Keyword kw =>
      if kw = "with" then parseWithP ps
      else if kw = "set" then parseSetP ps
      else if kw = "as" then parseAsP ps
      else if kw = "to" then parseToP ps
      else if kw = "then" then parseThenP fuel ps
      else if kw = "do" then parseDoP fuel ps
      else if kw = "print" then parsePrintP ps
      else if kw = "where" then parseWhereP fuel ps
      else if kw = "loop" then parseLoopP ps
      else if kw = "iter" then parseIterP ps
      else
        (Statement.Print (Expression.StringLiteral "Unknown Keyword."),
         pAdvance (pDiag ps ("Clarice doesn't recognize the keyword \"" ++ kw ++ "\".")))
    | Token.Identifier _ =>
      (Statement.Print (Expression.StringLiteral "Unexpected Identifier."),
       pAdvance (pDiag ps ("Expected a statement, got " ++ debugToken (pCurrent ps))))
    | t =>
      (Statement.Print (Expression.StringLiteral "No Statement."),
       pAdvance (pDiag ps ("Expected a statement, got " ++ debugToken t)))

/-- `Parser::parse_then_statement` (parser.rs lines 259-265). -/
def parseThenP : Nat → PState → Statement × PState
  | 0, ps => (Statement.Print (Expression.StringLiteral "No Statement."), ps)
  | fuel + 1, ps =>
    match parseStatementP fuel (pAdvance ps) with
    | (s, ps1) => (Statement.Then s, ps1)

/-- `Parser::parse_do_statement` (parser.rs lines 267-274). -/
def parseDoP : Nat → PState → Statement × PState
  | 0, ps => (Statement.Print (Expression.StringLiteral "No Statement."), ps)
  | fuel + 1, ps =>
    match parseExpressionP (pAdvance ps) with
    | (e, ps1) =>
      match parseStatementP fuel ps1 with
      | (s, ps2) => (Statement.Do e s, ps2)

/-- `Parser::parse_where_statement` (parser.rs lines 284-299): the true
branch is a full recursively parsed sub-program; a false branch exists
only if the token after it is `Keyword("otherwise")` - a token the
lexer never produces, since `otherwise` is missing from its keyword
list. -/
def parseWhereP : Nat → PState → Statement × PState
  | 0, ps => (Statement.Print (Expression.StringLiteral "No Statement."), ps)
  | fuel + 1, ps =>
    match parseExpressionP (pAdvance ps) with
    | (condition, ps1) =>
      match parseProgramP fuel ps1 with
      | (tb, ps2) =>
        if pCurrent ps2 = Token.Keyword "otherwise" then
          match parseProgramP fuel (pAdvance ps2) with
          | (fb, ps3) => (Statement.Where condition tb (some fb), ps3)
        else
          (Statement.Where condition tb none, ps2)
end

/-- `Parser::parse` (parser.rs lines 354-359): build the AST, then hand
it to the checker; fails iff the checker errs.  On success also
returns the parser's accumulated standard-output diagnostics. -/
def parseAndCheck (fuel : Nat) (toks : List Token) :
    Except String (ASTNode × List String) :=
  match parseProgramP fuel { toks := toks, diags := [] } with
  | (program, ps) =>
    match check program with
    | Except.error e => Except.error e
    | Except.ok () => Except.ok (program, ps.diags)

/-- The core entry point `clarice_eval` (main.rs lines 13-42) as far as
the pipeline is concerned: tokenize, parse (which checks), then
interpret with a fresh `Environment`.  Yields the lines written to
standard output (the parser's diagnostics followed by the program's
output, in emission order) and to standard error; `none` if evaluation
does not finish (unbounded `loop`).  A parse error would produce the
error line instead of running, which `Except.error` mirrors. -/
def clarice_eval (fuel : Nat) (input : String) :
    Except String (Option (List String × List String)) :=
  match parseAndCheck fuel (tokenize input.data) with
  | Except.error e => Except.error e
  | Except.ok (program, pdiags) =>
    Except.ok ((interpret fuel initState program).map
      (fun st => (pdiags ++ st.out, st.err)))

/-! ## Token rendering (for the round-trip property)

The spec's rendering of a token back to source text: the keyword or
identifier text itself, the decimal form of the integer, the quoted
string content.  (The scanner only ever produces non-negative integer
values, so the decimal form of a scanned integer never needs a sign.) -/

/-- The decimal digit character for `d % 10`-style values. -/
def digitChar : Nat → Char
  | 0 => '0' | 1 => '1' | 2 => '2' | 3 => '3' | 4 => '4'
  | 5 => '5' | 6 => '6' | 7 => '7' | 8 => '8' | _ => '9'

/-- Decimal rendering of a natural number, most significant digit
first. -/
def natToChars (n : Nat) : List Char :=
  if n < 10 then [digitChar n]
  else natToChars (n / 10) ++ [digitChar (n % 10)]
termination_by n
decreasing_by exact Nat.div_lt_self (by omega) (by omega)

/-- Rendering a token back to text. -/
def renderTokenChars : Token → List Char
  | Token.Keyword s => s.data
  | Token.Identifier s => s.data
  | Token.IntegerLiteral i => natToChars i.toNat
  | Token.StringLiteral s => '\"' :: (s.data ++ ['\"'])
  | Token.Operator s => s.data
  | Token.Separator s => s.data
  | Token.EOF => []

/-- The four token kinds the round-trip claim quantifies over. -/
def isLexicalToken : Token → Bool
  | Token.Keyword _ => true
  | Token.Identifier _ => true
  | Token.IntegerLiteral _ => true
  | Token.StringLiteral _ => true
  | _ => false

/-- Structural facts the scanner guarantees about each token it emits:
keywords are from the fixed keyword set; identifiers are nonempty,
start with an ASCII letter, consist of identifier characters and are
not keywords; integer values lie in `[0, i64::MAX]`; string literal
content contains no double quote. -/
def TokenInv : Token → Prop
  | Token.Keyword s => isKeywordText s = true
  | Token.Identifier s =>
      (∃ c cs, s.data = c :: cs ∧ isAlphaC c = true) ∧
      (∀ ch ∈ s.data, isIdentC ch = true) ∧ isKeywordText s = false
  | Token.IntegerLiteral v => 0 ≤ v ∧ v ≤ (i64Max : Int)
  | Token.StringLiteral s => ∀ ch ∈ s.data, ch ≠ '\"'
  | _ => True

/-! ## Helper lemmas -/

theorem isSpaceC_toNat {c : Char} (h : isSpaceC c = true) : c.toNat ≤ 32 := by
  simp [isSpaceC] at h
  rcases h with ((((rfl | rfl) | rfl) | rfl) | rfl) | rfl <;> decide

theorem isDigitC_not_space {c : Char} (h : isDigitC c = true) : isSpaceC c = false := by
  by_contra hs
  rw [Bool.not_eq_false] at hs
  have := isSpaceC_toNat hs
  simp [isDigitC] at h
  omega

theorem isAlphaC_not_space {c : Char} (h : isAlphaC c = true) : isSpaceC c = false := by
  by_contra hs
  rw [Bool.not_eq_false] at hs
  have := isSpaceC_toNat hs
  simp [isAlphaC] at h
  omega

theorem isAlphaC_not_digit {c : Char} (h : isAlphaC c = true) : isDigitC c = false := by
  simp [isAlphaC] at h
  simp [isDigitC]
  omega

/-- `evaluate_expression` never touches the variable map nor standard
output: its only state effect is appending diagnostics to standard
error. -/
theorem evalExpr_frame (st : EnvState) (e : Expression) :
    (evalExpr st e).2.vars = st.vars ∧ (evalExpr st e).2.out = st.out := by
  cases e with
  | Identifier id =>
    cases h : st.vars id <;> simp [evalExpr, h, pushErr]
  | IntegerLiteral i => simp [evalExpr]
  | StringLiteral s => simp [evalExpr]
  | BooleanLiteral b => simp [evalExpr]
  | ListLiteral l => simp [evalExpr]
  | FunctionCall n args => simp [evalExpr]

theorem evalExpr_vars (st : EnvState) (e : Expression) :
    (evalExpr st e).2.vars = st.vars :=
  (evalExpr_frame st e).1

/-- Iterating body evaluations (the Integer mode of `execute_iter`)
never changes the variable map. -/
theorem iterate_eval_vars (body : Expression) :
    ∀ (m : Nat) (st : EnvState),
      (Nat.iterate (fun s2 => (evalExpr s2 body).2) m st).vars = st.vars := by
  intro m
  induction m with
  | zero => intro st; rfl
  | succ m ih =>
    intro st
    rw [Function.iterate_succ_apply]
    rw [ih ((evalExpr st body).2), evalExpr_vars]

/-- `loop` never finishes, whatever the fuel. -/
theorem loopRun_none (e : Expression) :
    ∀ (fuel : Nat) (st : EnvState), loopRun e fuel st = none := by
  intro fuel
  induction fuel with
  | zero => intro st; rfl
  | succ fuel ih => intro st; simp [loopRun, ih]

/-- One string-mode iteration updates only the loop variable. -/
theorem iterCharStep_vars (vr : String) (body : Expression) (st : EnvState) (c : Char) :
    (iterCharStep vr body st c).vars =
      fun k => if k = vr then some (Value.String (String.mk [c])) else st.vars k := by
  simp [iterCharStep, evalExpr_vars, insertVar]

/-- One list-mode iteration updates only the loop variable, binding it
to the element's value as evaluated in the pre-iteration state. -/
theorem iterElemStep_vars (vr : String) (body : Expression) (st : EnvState)
    (el : Expression) :
    (iterElemStep vr body st el).vars =
      fun k => if k = vr then some ((evalExpr st el).1) else st.vars k := by
  rcases h : evalExpr st el with ⟨v, st1⟩
  have hv : (evalExpr st el).1 = v := by rw [h]
  have h1 : st1.vars = st.vars := by
    have := evalExpr_vars st el
    rw [h] at this
    exact this
  simp [iterElemStep, h, evalExpr_vars, insertVar, h1, hv]

theorem foldl_charStep_vars_ne (vr : String) (body : Expression) :
    ∀ (cs : List Char) (st : EnvState) (k : String), k ≠ vr →
      (cs.foldl (iterCharStep vr body) st).vars k = st.vars k := by
  intro cs
  induction cs with
  | nil => intro st k _; rfl
  | cons c cs ih =>
    intro st k hk
    rw [List.foldl_cons, ih _ k hk, iterCharStep_vars]
    simp [hk]

theorem foldl_elemStep_vars_ne (vr : String) (body : Expression) :
    ∀ (l : List Expression) (st : EnvState) (k : String), k ≠ vr →
      (l.foldl (iterElemStep vr body) st).vars k = st.vars k := by
  intro l
  induction l with
  | nil => intro st k _; rfl
  | cons el l ih =>
    intro st k hk
    rw [List.foldl_cons, ih _ k hk, iterElemStep_vars]
    simp [hk]

theorem parseI64_range (cs : List Char) :
    0 ≤ parseI64 cs ∧ parseI64 cs ≤ (i64Max : Int) := by
  unfold parseI64
  split
  · constructor
    · exact Int.ofNat_nonneg _
    · exact_mod_cast ‹digitsToNat cs ≤ i64Max›
  · constructor
    · rfl
    · unfold i64Max; omega

/-- Every token the scanner emits satisfies `TokenInv`. -/
theorem nextToken_inv : ∀ cs : List Char, TokenInv (nextToken cs).1 := by
  intro cs
  induction cs with
  | nil => exact trivial
  | cons c rest ih =>
    by_cases h1 : isSpaceC c = true
    · rw [show nextToken (c :: rest) = nextToken rest from by
        simp only [nextToken, h1, if_true]]
      exact ih
    · simp only [nextToken, h1, if_false]
      by_cases h2 : isDigitC c = true
      · simp only [h2, if_true]
        exact parseI64_range _
      · simp only [h2, if_false]
        by_cases h3 : isAlphaC c = true
        · simp only [h3, if_true]
          by_cases hk : isKeywordText (String.mk ((c :: rest).takeWhile isIdentC)) = true
          · rw [if_pos hk]
            exact hk
          · rw [if_neg hk]
            have hc : isIdentC c = true := by simp [isIdentC, isAlnumC, h3]
            refine ⟨⟨c, rest.takeWhile isIdentC, ?_, h3⟩, ?_, by simpa using hk⟩
            · show (c :: rest).takeWhile isIdentC = c :: rest.takeWhile isIdentC
              rw [List.takeWhile_cons, if_pos hc]
            · intro ch hch
              exact List.mem_takeWhile_imp hch
        · simp only [h3, if_false]
          by_cases h4 : (c = '+' || c = '-' || c = '*' || c = '/' || c = '=') = true
          · simp only [h4, if_true]
            exact trivial
          · simp only [h4, if_false]
            by_cases h5 : (c = '(' || c = ')' || c = '\x7b' || c = '\x7d' || c = '[' ||
                c = ']' || c = ':' || c = ';' || c = ',' || c = '.') = true
            · simp only [h5, if_true]
              exact trivial
            · simp only [h5, if_false]
              by_cases h6 : c = '\"'
              · rw [if_pos h6]
                intro ch hch
                have := List.mem_takeWhile_imp hch
                simpa using this
              · rw [if_neg h6]
                exact ih

theorem digitChar_toNat {d : Nat} (h : d < 10) : (digitChar d).toNat = 48 + d := by
  interval_cases d <;> decide

theorem isDigitC_digitChar {d : Nat} (h : d < 10) : isDigitC (digitChar d) = true := by
  interval_cases d <;> decide

theorem digitsToNat_append (a : List Char) (c : Char) :
    digitsToNat (a ++ [c]) = 10 * digitsToNat a + (c.toNat - 48) := by
  simp [digitsToNat, List.foldl_append]

/-- Decimal rendering inverts the scanner's digit-run accumulator. -/
theorem digitsToNat_natToChars : ∀ n : Nat, digitsToNat (natToChars n) = n := by
  intro n
  induction n using Nat.strong_induction_on with
  | _ n ih =>
    rw [natToChars]
    split
    · simp only [digitsToNat, List.foldl_cons, List.foldl_nil]
      rw [digitChar_toNat ‹n < 10›]
      omega
    · rw [digitsToNat_append,
        ih (n / 10) (Nat.div_lt_self (by omega) (by omega)),
        digitChar_toNat (Nat.mod_lt _ (by omega))]
      omega

theorem natToChars_ne_nil (n : Nat) : natToChars n ≠ [] := by
  rw [natToChars]
  split <;> simp

theorem natToChars_all_digit : ∀ (n : Nat), ∀ c ∈ natToChars n, isDigitC c = true := by
  intro n
  induction n using Nat.strong_induction_on with
  | _ n ih =>
    intro c hc
    rw [natToChars] at hc
    split at hc
    · rw [List.mem_singleton] at hc
      subst hc
      exact isDigitC_digitChar ‹n < 10›
    · rw [List.mem_append] at hc
      rcases hc with hc | hc
      · exact ih (n / 10) (Nat.div_lt_self (by omega) (by omega)) c hc
      · rw [List.mem_singleton] at hc
        subst hc
        exact isDigitC_digitChar (Nat.mod_lt _ (by omega))

/-- Re-scanning the decimal rendering of an in-range value recovers the
same integer token. -/
theorem nextToken_natToChars {n : Nat} (h : n ≤ i64Max) :
    nextToken (natToChars n) = (Token.IntegerLiteral (n : Int), []) := by
  rcases hd : natToChars n with _ | ⟨c, cs⟩
  · exact absurd hd (natToChars_ne_nil n)
  · have hall : ∀ x ∈ c :: cs, isDigitC x = true := by
      rw [← hd]; exact natToChars_all_digit n
    have hc : isDigitC c = true := hall c (List.mem_cons_self c cs)
    have hsp : isSpaceC c = false := isDigitC_not_space hc
    have htw : (c :: cs).takeWhile isDigitC = c :: cs :=
      List.takeWhile_eq_self_iff.mpr hall
    have hdw : (c :: cs).dropWhile isDigitC = [] :=
      List.dropWhile_eq_nil_iff.mpr hall
    have hval : digitsToNat (c :: cs) = n := by
      rw [← hd]; exact digitsToNat_natToChars n
    simp [nextToken, hsp, hc, htw, hdw, parseI64, hval, h]

/-- Re-scanning an identifier's text recovers the same token. -/
theorem nextToken_identText {s : String}
    (h1 : ∃ c cs, s.data = c :: cs ∧ isAlphaC c = true)
    (h2 : ∀ ch ∈ s.data, isIdentC ch = true)
    (h3 : isKeywordText s = false) :
    nextToken s.data = (Token.Identifier s, []) := by
  obtain ⟨c, cs, hd, hca⟩ := h1
  have hsp : isSpaceC c = false := isAlphaC_not_space hca
  have hdg : isDigitC c = false := isAlphaC_not_digit hca
  have htw : s.data.takeWhile isIdentC = s.data :=
    List.takeWhile_eq_self_iff.mpr h2
  have hdw : s.data.dropWhile isIdentC = [] :=
    List.dropWhile_eq_nil_iff.mpr h2
  rw [hd] at htw hdw ⊢
  have hmk : String.mk (c :: cs) = s := by rw [← hd]
  simp [nextToken, hsp, hdg, hca, htw, hdw, hmk, h3]

/-- Re-scanning a keyword's text recovers the same token. -/
theorem nextToken_keywordText {s : String} (h : isKeywordText s = true) :
    nextToken s.data = (Token.Keyword s, []) := by
  simp [isKeywordText] at h
  rcases h with ((((((((rfl | rfl) | rfl) | rfl) | rfl) | rfl) | rfl) | rfl) | rfl) | rfl <;>
    decide

theorem takeWhile_append_last {p : Char → Bool} :
    ∀ (l : List Char) (q : Char), (∀ x ∈ l, p x = true) → p q = false →
      (l ++ [q]).takeWhile p = l ∧ (l ++ [q]).dropWhile p = [q] := by
  intro l
  induction l with
  | nil =>
    intro q _ hq
    simp [List.takeWhile_cons, List.dropWhile_cons, hq]
  | cons c l ih =>
    intro q hall hq
    have hc : p c = true := hall c (List.mem_cons_self c l)
    have hrest := ih q (fun x hx => hall x (List.mem_cons_of_mem c hx)) hq
    simp [List.takeWhile_cons, List.dropWhile_cons, hc, hrest.1, hrest.2]

/-- Re-scanning a quoted string-literal rendering recovers the same
token (possible because scanned string content never contains a double
quote). -/
theorem nextToken_stringLit {s : String} (h : ∀ ch ∈ s.data, ch ≠ '\"') :
    nextToken ('\"' :: (s.data ++ ['\"'])) = (Token.StringLiteral s, []) := by
  have hall : ∀ x ∈ s.data, (fun ch => decide (ch ≠ '\"')) x = true := by
    intro x hx
    simpa using h x hx
  have hq : (fun ch => decide (ch ≠ '\"')) '\"' = false := by decide
  have htd := takeWhile_append_last s.data '\"' hall hq
  have hmk : String.mk s.data = s := rfl
  simp only [nextToken]
  rw [if_neg (by decide), if_neg (by decide), if_neg (by decide),
    if_neg (by decide), if_neg (by decide)]
  simp only [if_true]
  rw [htd.1, htd.2, hmk]
  rfl

/-- After folding the string-mode iteration over a nonempty character
list, the loop variable holds the last character. -/
theorem foldl_charStep_last (vr : String) (body : Expression) :
    ∀ (cs : List Char) (c : Char) (st : EnvState), cs.getLast? = some c →
      (cs.foldl (iterCharStep vr body) st).vars vr =
        some (Value.String (String.mk [c])) := by
  intro cs
  induction cs with
  | nil => intro c st h; simp at h
  | cons c0 cs ih =>
    intro c st h
    cases cs with
    | nil =>
      simp at h
      subst h
      rw [List.foldl_cons, List.foldl_nil, iterCharStep_vars]
      simp
    | cons c1 cs' =>
      rw [List.getLast?_cons_cons] at h
      rw [List.foldl_cons]
      exact ih c _ h

/-! ## The claims -/

/-- C1: the claim says `check` returns `Err` with the first diagnostic
whenever a checked statement's governing expression is an undefined
identifier, a `ListLiteral` or a `FunctionCall`, that `parse()` then
fails, and that nothing executes.  In fact `TypeChecker::check`
discards every per-statement `Result` (type_checker.rs line 21) and
unconditionally returns `Ok(())`; hence `parse` never fails with a
check diagnostic, and a program whose `print` governs a `ListLiteral`
runs and prints. -/
theorem claim1_check_never_fails :
    (∀ p : ASTNode, check p = Except.ok ()) ∧
    (∀ (fuel : Nat) (toks : List Token), ∃ r, parseAndCheck fuel toks = Except.ok r) ∧
    ((interpret 8 initState (ASTNode.Program
        [Statement.Print (Expression.ListLiteral
          [Expression.IntegerLiteral 1, Expression.IntegerLiteral 2])])).map
      (fun st => (st.out, st.err)) =
      some (["[IntegerLiteral(1), IntegerLiteral(2)]"], [])) := by
  refine ⟨?_, ?_, rfl⟩
  · intro p
    cases p
    rfl
  · intro fuel toks
    rcases hp : parseProgramP fuel { toks := toks, diags := [] } with ⟨program, ps⟩
    cases program with
    | Program stmts =>
      exact ⟨(ASTNode.Program stmts, ps.diags), by simp [parseAndCheck, hp, check]⟩

/-- C2: the claim says a `With` binding is dropped after the single
statement that follows it, so a later reference fails with an
undefined-variable diagnostic.  In fact `execute_with` does a plain
`variables.insert` (interpreter.rs line 77) and nothing ever removes
it - contradicting the function's own doc comment (interpreter.rs
lines 64-74).  Running `with x = 1; print x; print x` prints `1`
twice, logs no diagnostic, and leaves `x` bound. -/
theorem claim2_with_binding_persists :
    (interpret 8 initState (ASTNode.Program
      [Statement.With "x" (Expression.IntegerLiteral 1),
       Statement.Print (Expression.Identifier "x"),
       Statement.Print (Expression.Identifier "x")])).map
        (fun st => (st.out, st.err, st.vars "x")) =
      some (["1", "1"], [], some (Value.Integer 1)) := rfl

/-- C3: the claim says the keyword set is exactly the eleven words
including `otherwise`, and that `otherwise` always scans as
`Keyword("otherwise")`.  In fact `otherwise` is missing from the
lexer's keyword list (lexer.rs line 118): it scans as an Identifier,
and no input whatsoever can produce the `Keyword("otherwise")` token
the parser's false-branch detection compares against
(parser.rs line 288). -/
theorem claim3_otherwise_scans_as_identifier :
    tokenize "otherwise".data = [Token.Identifier "otherwise"] ∧
    ∀ cs : List Char, (nextToken cs).1 ≠ Token.Keyword "otherwise" := by
  constructor
  · decide
  · intro cs hk
    have hinv := nextToken_inv cs
    rw [hk] at hinv
    have hbad : isKeywordText "otherwise" = true := hinv
    exact absurd hbad (by decide)

/-- C4: the claim says the line `iter x in "ab" do print x` emits
exactly `a` then `b`.  In fact `parse_iter_statement` never consumes
`in` or `do` (parser.rs lines 309-329): the body expression becomes
the identifier `in`, `"ab"` becomes the iterable, and `do print x`
parses as a separate mangled `Do` statement.  The run emits two parser
diagnostics and the placeholder line `Unexpected Identifier.` on
standard output and two undefined-variable diagnostics for `in` on
standard error - never `a` or `b`. -/
theorem claim4_iter_pipeline_output :
    clarice_eval 32 "iter x in \"ab\" do print x" =
      Except.ok (some
        (["Expected an expression, got Keyword(\"print\")",
          "Expected a statement, got Identifier(\"x\")",
          "Unexpected Identifier."],
         ["No variable `in` - use `with` or `set` to define it",
          "No variable `in` - use `with` or `set` to define it"])) ∧
    (match clarice_eval 32 "iter x in \"ab\" do print x" with
     | Except.ok (some (outs, _)) => outs
     | _ => []) ≠ ["a", "b"] := by
  constructor
  · rfl
  · decide

/-- C5 counterexample: on the non-Boolean condition `1` with an
`otherwise` branch present, `execute_where` runs the false branch
(printing `B`) and logs no diagnostic - the claim would require no
branch to run and a diagnostic to be logged. -/
theorem claim5_counterexample :
    (execStmt 8 initState (Statement.Where (Expression.IntegerLiteral 1)
        (ASTNode.Program [Statement.Print (Expression.StringLiteral "A")])
        (some (ASTNode.Program [Statement.Print (Expression.StringLiteral "B")])))).map
      (fun st => (st.out, st.err)) = some (["B"], []) := rfl

/-- C5 amended: `execute_where` evaluates the condition exactly once;
`Boolean(true)` runs the true branch; ANY other value - including
`Boolean(false)` and every non-Boolean value - runs the false branch
when present and otherwise does nothing; no diagnostic is ever logged
by `where` itself (interpreter.rs lines 160-168: the `if let
Boolean(true)` simply falls through to the `else if`). -/
theorem claim5_where_semantics (fuel : Nat) (st : EnvState) (condition : Expression)
    (tb : ASTNode) (fb : Option ASTNode) :
    ((evalExpr st condition).1 = Value.Boolean true →
      execStmt (fuel + 1) st (Statement.Where condition tb fb) =
        interpret fuel (evalExpr st condition).2 tb) ∧
    ((evalExpr st condition).1 ≠ Value.Boolean true →
      execStmt (fuel + 1) st (Statement.Where condition tb fb) =
        (match fb with
         | some p => interpret fuel (evalExpr st condition).2 p
         | none => some (evalExpr st condition).2)) := by
  rcases h : evalExpr st condition with ⟨v, st1⟩
  constructor
  · intro hv
    simp only at hv
    subst hv
    cases tb with
    | Program stmts => simp [execStmt, h, interpret]
  · intro hv
    simp only at hv
    cases v with
    | Boolean b =>
      cases b with
      | true => exact absurd rfl hv
      | false =>
        cases fb with
        | none => simp [execStmt, h]
        | some p => cases p with
          | Program stmts => simp [execStmt, h, interpret]
    | Integer i =>
      cases fb with
      | none => simp [execStmt, h]
      | some p => cases p with
        | Program stmts => simp [execStmt, h, interpret]
    | Double d =>
      cases fb with
      | none => simp [execStmt, h]
      | some p => cases p with
        | Program stmts => simp [execStmt, h, interpret]
    | String s =>
      cases fb with
      | none => simp [execStmt, h]
      | some p => cases p with
        | Program stmts => simp [execStmt, h, interpret]
    | List l =>
      cases fb with
      | none => simp [execStmt, h]
      | some p => cases p with
        | Program stmts => simp [execStmt, h, interpret]
    | Closure n args =>
      cases fb with
      | none => simp [execStmt, h]
      | some p => cases p with
        | Program stmts => simp [execStmt, h, interpret]
    | Void =>
      cases fb with
      | none => simp [execStmt, h]
      | some p => cases p with
        | Program stmts => simp [execStmt, h, interpret]

theorem claim5_where_semantics_witness :
    execStmt 2 initState (Statement.Where (Expression.IntegerLiteral 7)
      (ASTNode.Program []) none) =
      some (evalExpr initState (Expression.IntegerLiteral 7)).2 :=
  (claim5_where_semantics 1 initState (Expression.IntegerLiteral 7)
    (ASTNode.Program []) none).2 (fun hv => nomatch hv)

/-- C6: once a `Loop` statement is reached it never completes - for
every fuel bound the loop re-evaluates its expression until the fuel
is exhausted without finishing (`loopRun` recurses unconditionally,
interpreter.rs lines 178-182) - and consequently no statement after
the `Loop` in the enclosing sequence is ever executed. -/
theorem claim6_loop_never_terminates (e : Expression) (fuel : Nat) (st : EnvState)
    (rest : List Statement) :
    execStmt fuel st (Statement.Loop e) = none ∧
    execList fuel st (Statement.Loop e :: rest) = none := by
  have h1 : ∀ (f : Nat) (st2 : EnvState), execStmt f st2 (Statement.Loop e) = none := by
    intro f st2
    cases f with
    | zero => rfl
    | succ f => simp [execStmt, loopRun_none]
  refine ⟨h1 fuel st, ?_⟩
  cases fuel with
  | zero => rfl
  | succ fuel => simp [execList, h1]

/-- C7: when the `iter` iterable evaluates to `Integer n`, the body
expression is evaluated exactly `n.toNat` times (`n` times for
`n > 0`, zero times for `n ≤ 0`, matching `for _ in 0..n`), and the
loop variable is never written: the variable map is left exactly as it
was (interpreter.rs lines 201-205). -/
theorem claim7_iter_integer (fuel : Nat) (st : EnvState) (vr : String)
    (iterable body : Expression) (n : Int)
    (h : (evalExpr st iterable).1 = Value.Integer n) :
    execStmt (fuel + 1) st (Statement.Iter vr iterable body) =
      some (Nat.iterate (fun s2 => (evalExpr s2 body).2) n.toNat (evalExpr st iterable).2) ∧
    (n ≤ 0 → execStmt (fuel + 1) st (Statement.Iter vr iterable body) =
      some (evalExpr st iterable).2) ∧
    (∀ k, (Nat.iterate (fun s2 => (evalExpr s2 body).2) n.toNat
      (evalExpr st iterable).2).vars k = st.vars k) := by
  rcases he : evalExpr st iterable with ⟨v, st1⟩
  rw [he] at h
  simp only at h
  subst h
  refine ⟨by simp [execStmt, he], ?_, ?_⟩
  · intro hn
    have h0 : (Value.Integer n, st1).1 = Value.Integer n := rfl
    have ht : n.toNat = 0 := Int.toNat_of_nonpos hn
    simp [execStmt, he, ht]
  · intro k
    rw [iterate_eval_vars]
    have hv := evalExpr_vars st iterable
    rw [he] at hv
    simp only at hv
    rw [hv]

theorem claim7_iter_integer_witness :
    execStmt 1 initState (Statement.Iter "x" (Expression.IntegerLiteral 3)
      (Expression.StringLiteral "hi")) =
      some (Nat.iterate (fun s2 => (evalExpr s2 (Expression.StringLiteral "hi")).2)
        (Int.toNat 3) (evalExpr initState (Expression.IntegerLiteral 3)).2) :=
  (claim7_iter_integer 0 initState "x" (Expression.IntegerLiteral 3)
    (Expression.StringLiteral "hi") 3 rfl).1

/-- C8: `evaluate_expression` is total (it returns a `Value` for every
expression and environment - totality is the type of `evalExpr`, with
no error path) and never changes the variable map or standard output;
an unbound identifier yields `Void` together with one standard-error
diagnostic instead of failing (interpreter.rs lines 217-234). -/
theorem claim8_evalExpr_total_frame (st : EnvState) (e : Expression) :
    (evalExpr st e).2.vars = st.vars ∧ (evalExpr st e).2.out = st.out ∧
    (∀ id, st.vars id = none →
      evalExpr st (Expression.Identifier id) =
        (Value.Void,
         pushErr st ("No variable `" ++ id ++ "` - use `with` or `set` to define it"))) := by
  refine ⟨evalExpr_vars st e, (evalExpr_frame st e).2, ?_⟩
  intro id hid
  simp [evalExpr, hid]

theorem claim8_evalExpr_witness :
    evalExpr initState (Expression.Identifier "y") =
      (Value.Void,
       pushErr initState "No variable `y` - use `with` or `set` to define it") :=
  (claim8_evalExpr_total_frame initState (Expression.Identifier "y")).2.2 "y" rfl

/-- C9 counterexample: the numeral `01` scans to `IntegerLiteral 1`,
whose decimal rendering is `1` - NOT the original source text `01` -
so "rendering recovers the original source text" fails; only the
weaker re-scanning property survives for this token. -/
theorem claim9_counterexample :
    nextToken "01".data = (Token.IntegerLiteral 1, []) ∧
    renderTokenChars (Token.IntegerLiteral 1) = "1".data ∧
    "1".data ≠ "01".data ∧
    nextToken (renderTokenChars (Token.IntegerLiteral 1)) =
      (Token.IntegerLiteral 1, []) := by
  have hr : renderTokenChars (Token.IntegerLiteral 1) = "1".data := by
    show natToChars (Int.toNat 1) = "1".data
    rw [natToChars]
    decide
  refine ⟨by decide, hr, by decide, ?_⟩
  rw [hr]
  decide

/-- C9 amended: for every Keyword, Identifier, IntegerLiteral or
StringLiteral token the scanner produces, re-scanning the token's
rendering yields exactly that token again.  Rendering does not in
general recover the original source text: integer literals scanned
from numerals with leading zeros (or numerals beyond i64::MAX, which
collapse to 0) re-render differently, and likewise unterminated string
literals; see the counterexample. -/
theorem claim9_rescan_roundtrip (cs : List Char) (t : Token) (rest : List Char)
    (h : nextToken cs = (t, rest)) (hl : isLexicalToken t = true) :
    tokenize (renderTokenChars t) = [t] := by
  have hinv : TokenInv t := by
    have := nextToken_inv cs
    rwa [h] at this
  have hone : nextToken (renderTokenChars t) = (t, []) := by
    cases t with
    | Keyword s => exact nextToken_keywordText hinv
    | Identifier s =>
      exact nextToken_identText hinv.1 hinv.2.1 hinv.2.2
    | IntegerLiteral v =>
      have h0 : 0 ≤ v := hinv.1
      have hm : v ≤ (i64Max : Int) := hinv.2
      have hn : (v.toNat : Int) = v := Int.toNat_of_nonneg h0
      have hle : v.toNat ≤ i64Max := by omega
      show nextToken (natToChars v.toNat) = (Token.IntegerLiteral v, [])
      rw [nextToken_natToChars hle, hn]
    | StringLiteral s => exact nextToken_stringLit hinv
    | Operator s => exact absurd hl (by simp [isLexicalToken])
    | Separator s => exact absurd hl (by simp [isLexicalToken])
    | EOF => exact absurd hl (by simp [isLexicalToken])
  have hne : (nextToken (renderTokenChars t)).1 ≠ Token.EOF := by
    rw [hone]
    intro hEOF
    simp only at hEOF
    rw [hEOF] at hl
    exact absurd hl (by decide)
  have h2 := (tokenize_unfold (renderTokenChars t)).2 hne
  rw [h2, hone]
  rfl

theorem claim9_rescan_witness :
    tokenize (renderTokenChars (Token.Identifier "foo")) = [Token.Identifier "foo"] :=
  claim9_rescan_roundtrip "foo".data (Token.Identifier "foo") [] (by decide) rfl

/-- C10: after `execute_iter` over a nonempty string or list, the loop
variable stays bound in the `Environment` - to the last character as a
one-character string, or to the last element's value as evaluated in
the state reached before the final iteration - overwriting any prior
binding of that name, while every other variable is untouched; nothing
removes the binding when iteration ends (interpreter.rs lines
192-215). -/
theorem claim10_iter_binding_persists (fuel : Nat) (st : EnvState) (vr : String)
    (iterable body : Expression) :
    (∀ (s : String) (c : Char), (evalExpr st iterable).1 = Value.String s →
      s.data.getLast? = some c →
      ∃ stF, execStmt (fuel + 1) st (Statement.Iter vr iterable body) = some stF ∧
        stF.vars vr = some (Value.String (String.mk [c])) ∧
        ∀ k, k ≠ vr → stF.vars k = st.vars k) ∧
    (∀ (lInit : List Expression) (el : Expression),
      (evalExpr st iterable).1 = Value.List (lInit ++ [el]) →
      ∃ stF, execStmt (fuel + 1) st (Statement.Iter vr iterable body) = some stF ∧
        stF.vars vr = some ((evalExpr (lInit.foldl (iterElemStep vr body)
          (evalExpr st iterable).2) el).1) ∧
        ∀ k, k ≠ vr → stF.vars k = st.vars k) := by
  rcases he : evalExpr st iterable with ⟨v, st1⟩
  have hst1 : st1.vars = st.vars := by
    have := evalExpr_vars st iterable
    rw [he] at this
    exact this
  constructor
  · intro s c hv hlast
    simp only at hv
    subst hv
    refine ⟨s.data.foldl (iterCharStep vr body) st1, by simp [execStmt, he], ?_, ?_⟩
    · exact foldl_charStep_last vr body s.data c st1 hlast
    · intro k hk
      rw [foldl_charStep_vars_ne vr body s.data st1 k hk, hst1]
  · intro lInit el hv
    simp only at hv
    subst hv
    refine ⟨(lInit ++ [el]).foldl (iterElemStep vr body) st1,
      by simp [execStmt, he], ?_, ?_⟩
    · rw [List.foldl_append, List.foldl_cons, List.foldl_nil, iterElemStep_vars]
      simp
    · intro k hk
      rw [foldl_elemStep_vars_ne vr body (lInit ++ [el]) st1 k hk, hst1]

theorem claim10_iter_binding_witness :
    ∃ stF, execStmt 1 initState (Statement.Iter "x" (Expression.StringLiteral "ab")
        (Expression.Identifier "x")) = some stF ∧
      stF.vars "x" = some (Value.String (String.mk ['b'])) ∧
      ∀ k, k ≠ "x" → stF.vars k = initState.vars k :=
  (claim10_iter_binding_persists 0 initState "x" (Expression.StringLiteral "ab")
    (Expression.Identifier "x")).1 "ab" 'b' rfl rfl

end Clarice
